import Mathlib

/-!
Shallow embedding of the SS58 address codec (encode/decode with a 1- or
2-byte network-format wire form, a domain-separated 2-byte checksum, and a
reserved-format blocklist).

Bytes are modelled as natural numbers below 256 (the source works on
Uint8Array values and plain JS numbers).  The two external collaborators —
the hash function (blake2b) and the base-58 string codec — are parameters:
theorems take them as arguments together with the contracts the source
relies on (hash output is a byte string of length at least 2; base-58
decode inverts base-58 encode on byte lists).  Concrete instantiations of
both collaborators are provided so that closed statements can be evaluated.

JS-indexing note: reading element `i` of an array is modelled by
`List.getD i 0`; the only place the source reads a possibly missing element
is inside a bitwise expression, where JS coerces `undefined` to 0, which is
what `getD _ 0` yields.  The checksum byte comparisons are modelled on
`Option` values (`l.get? i`), matching JS strict equality where a present
byte never equals a missing one.
-/

/-- The address value: 32 data bytes plus a network format.  The format is
an `Int` because the source stores it in a JS number and explicitly checks
for negative values on encode. -/
structure Address where
  data : List Nat
  ss58Format : Int
  deriving DecidableEq

/-- Failure kinds of `encode`, one per assertion in the source, in source
order. -/
inductive EncodeError where
  | invalidDataLength
  | invalidFormatRange
  | reservedFormat
  deriving DecidableEq

/-- Failure kinds of `decode`: base-58 failure propagated from the external
collaborator, then one per assertion in the source, in source order. -/
inductive DecodeError where
  | invalidBase58
  | reservedFormat
  | invalidDataLength
  | checksumMismatch
  deriving DecidableEq

/-- Domain-separation tag: the ASCII bytes of the string SS58PRE, written
as the literal byte list `[83, 83, 53, 56, 80, 82, 69]` in the source. -/
def checksumTag : List Nat := [83, 83, 53, 56, 80, 82, 69]

/-- computeChecksum from the source: hash the tag followed by the payload
and keep the first two bytes of the hash output. -/
def computeChecksum (H : List Nat → List Nat) (data : List Nat) : List Nat :=
  (H (checksumTag ++ data)).take 2

/-- Wire form of a format, from the encode path of the source: one byte for
formats up to 0x3f, otherwise the two-byte extended form
`[((f &&& 0xfc) >>> 2) ||| 0x40, (f >>> 8) ||| ((f &&& 0x3) <<< 6)]`. -/
def pack (f : Nat) : List Nat :=
  if f ≤ 0x3f then [f]
  else [((f &&& 0xfc) >>> 2) ||| 0x40, (f >>> 8) ||| ((f &&& 0x3) <<< 6)]

/-- Number of wire bytes the decode path consumes for the format: 2 when
bit 6 of the first byte is set, else 1. -/
def unpackLen (bytes : List Nat) : Nat :=
  if bytes.getD 0 0 &&& 0x40 ≠ 0 then 2 else 1

/-- Format recovered by the decode path from the first one or two wire
bytes. -/
def unpackFormat (bytes : List Nat) : Nat :=
  if bytes.getD 0 0 &&& 0x40 ≠ 0 then
    ((bytes.getD 0 0 &&& 0x3f) <<< 2) ||| (bytes.getD 1 0 >>> 6) |||
      ((bytes.getD 1 0 &&& 0x3f) <<< 8)
  else bytes.getD 0 0

/-- Byte-level encode, faithful to the source's assertion order: data
length, then format range, then the reserved blocklist; on success the wire
payload handed to the base-58 encoder. -/
def encodeBytes (H : List Nat → List Nat) (a : Address) : Except EncodeError (List Nat) :=
  if a.data.length ≠ 32 then Except.error EncodeError.invalidDataLength
  else if ¬(0 ≤ a.ss58Format ∧ a.ss58Format ≤ 0x3fff) then
    Except.error EncodeError.invalidFormatRange
  else if a.ss58Format = 46 ∨ a.ss58Format = 47 then Except.error EncodeError.reservedFormat
  else
    let prefixBytes := pack a.ss58Format.toNat
    Except.ok (prefixBytes ++ a.data ++ computeChecksum H (prefixBytes ++ a.data))

/-- Byte-level decode, faithful to the source: recover the format from the
first bytes, reject reserved formats, split off the last two bytes as the
wire checksum (`splice(-2)`), take what follows the format bytes as data,
require 32 data bytes, then compare both checksum bytes against the
checksum recomputed over everything before the wire checksum. -/
def decodeBytes (H : List Nat → List Nat) (decodedBytes : List Nat) : Except DecodeError Address :=
  let ss58FormatLen := unpackLen decodedBytes
  let ss58Format := unpackFormat decodedBytes
  if ss58Format = 46 ∨ ss58Format = 47 then Except.error DecodeError.reservedFormat
  else
    let body := decodedBytes.take (decodedBytes.length - 2)
    let checksumBytes := decodedBytes.drop (decodedBytes.length - 2)
    let data := body.drop ss58FormatLen
    if data.length ≠ 32 then Except.error DecodeError.invalidDataLength
    else
      let checksum := computeChecksum H body
      if checksumBytes.get? 0 ≠ checksum.get? 0 then Except.error DecodeError.checksumMismatch
      else if checksumBytes.get? 1 ≠ checksum.get? 1 then Except.error DecodeError.checksumMismatch
      else Except.ok ⟨data, (ss58Format : Int)⟩

/-- External base-58 collaborator: an encoder from byte lists to text and a
decoder that fails (None) on text outside the base-58 alphabet. -/
structure Base58Codec where
  enc : List Nat → String
  dec : String → Option (List Nat)

/-- String-level encode: byte-level encode followed by the external base-58
encoder. -/
def encode (H : List Nat → List Nat) (b : Base58Codec) (a : Address) : Except EncodeError String :=
  (encodeBytes H a).map b.enc

/-- String-level decode: external base-58 decode (failure propagates as a
decode failure) followed by byte-level decode. -/
def decode (H : List Nat → List Nat) (b : Base58Codec) (s : String) : Except DecodeError Address :=
  match b.dec s with
  | none => Except.error DecodeError.invalidBase58
  | some bytes => decodeBytes H bytes

/-- A list of byte values. -/
def IsByteList (bs : List Nat) : Prop := ∀ x ∈ bs, x < 256

/-- Contract of the external hash collaborator: fixed-output hash whose
output is a byte string of length at least 2 (blake2b outputs 64 bytes). -/
def HashValid (H : List Nat → List Nat) : Prop :=
  ∀ bs, 2 ≤ (H bs).length ∧ IsByteList (H bs)

/-- Contract of the external base-58 collaborator: decoding an encoded byte
list gives the bytes back. -/
def RoundTrips (b : Base58Codec) : Prop :=
  ∀ bs, IsByteList bs → b.dec (b.enc bs) = some bs

/-- Concrete instantiation of the external hash collaborator used to
evaluate closed statements: constant 64-byte output. -/
def constHash : List Nat → List Nat := fun _ => List.replicate 64 0

/-- Concrete instantiation of the external base-58 collaborator used to
evaluate closed statements: one character per byte. -/
def charCodec : Base58Codec where
  enc := fun bs => String.mk (bs.map Char.ofNat)
  dec := fun s => some (s.data.map Char.toNat)

/- Small-range bitwise facts, each settled by exhaustive evaluation. -/

set_option maxRecDepth 2000 in
theorem and64_eq_zero : ∀ x, x < 64 → x &&& 64 = 0 := by decide

set_option maxRecDepth 2000 in
theorem and252_eq : ∀ x, x < 256 → x &&& 252 = 4 * (x / 4) := by decide

set_option maxRecDepth 2000 in
theorem or64_and : ∀ x, x < 64 → (x ||| 64) &&& 64 = 64 ∧ (x ||| 64) &&& 63 = x := by decide

set_option maxRecDepth 2000 in
theorem orShift6 : ∀ c, c < 64 → ∀ m, m < 4 →
    (c ||| m <<< 6) >>> 6 = m ∧ (c ||| m <<< 6) &&& 63 = c := by decide

set_option maxRecDepth 2000 in
theorem charRoundTrip : ∀ x, x < 256 → (Char.ofNat x).toNat = x := by decide

theorem and3_eq_mod (f : Nat) : f &&& 3 = f % 4 := by
  have h := Nat.and_pow_two_sub_one_eq_mod f 2
  norm_num at h
  exact h

theorem and255_eq_mod (f : Nat) : f &&& 255 = f % 256 := by
  have h := Nat.and_pow_two_sub_one_eq_mod f 8
  norm_num at h
  exact h

theorem and252_mod (f : Nat) : f &&& 252 = 4 * (f % 256 / 4) := by
  have h1 : f &&& 252 = (f &&& 255) &&& 252 := by
    rw [Nat.and_assoc]
    congr 1
  rw [h1, and255_eq_mod, and252_eq _ (Nat.mod_lt _ (by norm_num))]

theorem shiftRight8_eq (f : Nat) : f >>> 8 = f / 256 := by
  rw [Nat.shiftRight_eq_div_pow]

theorem pack_length (f : Nat) : (pack f).length = if f ≤ 63 then 1 else 2 := by
  unfold pack
  split <;> simp_all

/-- Round-trip of the wire form of the format, stated on the packed bytes
followed by arbitrary further wire bytes, as on the decode path. -/
theorem unpack_pack (f : Nat) (hf : f ≤ 16383) (rest : List Nat) :
    unpackFormat (pack f ++ rest) = f ∧ unpackLen (pack f ++ rest) = (pack f).length := by
  rcases le_or_lt f 63 with hle | hgt
  · have hand : f &&& 64 = 0 := and64_eq_zero f (by omega)
    simp [pack, unpackFormat, unpackLen, hle, hand]
  · have hfle : ¬ f ≤ 0x3f := by omega
    have hq : f % 256 / 4 < 64 := by omega
    have hb0 : (f &&& 252) >>> 2 = f % 256 / 4 := by
      rw [and252_mod, Nat.shiftRight_eq_div_pow]
      norm_num [Nat.mul_div_cancel_left]
    have hor := or64_and (f % 256 / 4) hq
    have hb1 := orShift6 (f / 256) (by omega) (f % 4) (by omega)
    have hc3 : f &&& 3 = f % 4 := and3_eq_mod f
    simp only [pack, if_neg hfle, unpackFormat, unpackLen, List.cons_append,
      List.getD_cons_zero, List.getD_cons_succ, shiftRight8_eq, hc3, hb0]
    have hcond : (f % 256 / 4 ||| 64) &&& 64 ≠ 0 := by
      rw [hor.1]; omega
    rw [if_pos hcond, if_pos hcond, hor.2, hb1.1, hb1.2]
    constructor
    · have e1 : (f % 256 / 4) <<< 2 = 4 * (f % 256 / 4) := by
        rw [Nat.shiftLeft_eq]; ring
      have e2 : (f / 256) <<< 8 = 256 * (f / 256) := by
        rw [Nat.shiftLeft_eq]; ring
      rw [e1, e2]
      have d1 : 4 * (f % 256 / 4) ||| f % 4 = 4 * (f % 256 / 4) + f % 4 := by
        have := Nat.mul_add_lt_is_or (b := f % 4) (i := 2) (by omega) (f % 256 / 4)
        norm_num at this ⊢
        omega
      have d2 : (4 * (f % 256 / 4) + f % 4) ||| 256 * (f / 256) =
          256 * (f / 256) + (4 * (f % 256 / 4) + f % 4) := by
        rw [Nat.lor_comm]
        have := Nat.mul_add_lt_is_or (b := 4 * (f % 256 / 4) + f % 4) (i := 8)
          (by omega) (f / 256)
        norm_num at this ⊢
        omega
      rw [d1, d2]
      omega
    · simp [pack, hfle]

/-- Definitional shape of the byte-level decode: the linear pipeline of
checks, written without let bindings. -/
theorem decodeBytes_eq (H : List Nat → List Nat) (bytes : List Nat) :
    decodeBytes H bytes =
      if unpackFormat bytes = 46 ∨ unpackFormat bytes = 47 then
        Except.error DecodeError.reservedFormat
      else if ((bytes.take (bytes.length - 2)).drop (unpackLen bytes)).length ≠ 32 then
        Except.error DecodeError.invalidDataLength
      else if (bytes.drop (bytes.length - 2)).get? 0 ≠
          (computeChecksum H (bytes.take (bytes.length - 2))).get? 0 then
        Except.error DecodeError.checksumMismatch
      else if (bytes.drop (bytes.length - 2)).get? 1 ≠
          (computeChecksum H (bytes.take (bytes.length - 2))).get? 1 then
        Except.error DecodeError.checksumMismatch
      else Except.ok ⟨(bytes.take (bytes.length - 2)).drop (unpackLen bytes),
        (unpackFormat bytes : Int)⟩ := rfl

/-- Behaviour of the byte-level decode on a wire payload split into format
bytes, 32 data bytes and a 2-byte checksum slot. -/
theorem decodeBytes_split (H : List Nat → List Nat) (pre data cs : List Nat)
    (hlen : unpackLen (pre ++ data ++ cs) = pre.length)
    (hdata : data.length = 32) (hcs : cs.length = 2) :
    decodeBytes H (pre ++ data ++ cs) =
      if unpackFormat (pre ++ data ++ cs) = 46 ∨ unpackFormat (pre ++ data ++ cs) = 47 then
        Except.error DecodeError.reservedFormat
      else if cs.get? 0 ≠ (computeChecksum H (pre ++ data)).get? 0 then
        Except.error DecodeError.checksumMismatch
      else if cs.get? 1 ≠ (computeChecksum H (pre ++ data)).get? 1 then
        Except.error DecodeError.checksumMismatch
      else Except.ok ⟨data, (unpackFormat (pre ++ data ++ cs) : Int)⟩ := by
  have hL : (pre ++ data ++ cs).length - 2 = (pre ++ data).length := by
    simp [hcs]
    omega
  have htake : (pre ++ data ++ cs).take ((pre ++ data ++ cs).length - 2) = pre ++ data :=
    List.take_left' hL.symm
  have hdrop : (pre ++ data ++ cs).drop ((pre ++ data ++ cs).length - 2) = cs :=
    List.drop_left' hL.symm
  have hmid : (pre ++ data).drop pre.length = data := List.drop_left _ _
  rw [decodeBytes_eq, htake, hdrop, hlen, hmid, hdata]
  norm_num

/-- Encode succeeds on a valid address and hands the base-58 encoder the
payload consisting of format bytes, the data, and the checksum taken over
format bytes plus data. -/
theorem encodeBytes_ok (H : List Nat → List Nat) (a : Address)
    (hlen : a.data.length = 32) (h0 : 0 ≤ a.ss58Format) (h1 : a.ss58Format ≤ 16383)
    (h46 : a.ss58Format ≠ 46) (h47 : a.ss58Format ≠ 47) :
    encodeBytes H a = Except.ok (pack a.ss58Format.toNat ++ a.data ++
      computeChecksum H (pack a.ss58Format.toNat ++ a.data)) := by
  have c1 : ¬a.data.length ≠ 32 := by omega
  have c2 : ¬¬(0 ≤ a.ss58Format ∧ a.ss58Format ≤ 0x3fff) := by
    norm_num
    omega
  have c3 : ¬(a.ss58Format = 46 ∨ a.ss58Format = 47) := by
    rintro (h | h) <;> simp_all
  rw [encodeBytes, if_neg c1, if_neg (by push_neg at c2 ⊢; omega), if_neg c3]

theorem pack_bytes (f : Nat) (hf : f ≤ 16383) : IsByteList (pack f) := by
  intro x hx
  rcases le_or_lt f 63 with hle | hgt
  · simp [pack, hle] at hx
    omega
  · have h252 : f &&& 252 < 2 ^ 8 := Nat.and_lt_two_pow f (by norm_num)
    have h252' : f &&& 252 < 256 := by
      rw [show (256 : Nat) = 2 ^ 8 by norm_num]
      exact h252
    have hb0 : (f &&& 252) >>> 2 < 64 := by
      rw [Nat.shiftRight_eq_div_pow]
      show (f &&& 252) / 4 < 64
      omega
    have hb0' : ((f &&& 252) >>> 2) ||| 64 < 256 := by
      have h1 : (f &&& 252) >>> 2 < 2 ^ 7 := by
        rw [show (2 : Nat) ^ 7 = 128 by norm_num]
        omega
      have h3 := Nat.or_lt_two_pow h1 (show (64 : Nat) < 2 ^ 7 by norm_num)
      rw [show (2 : Nat) ^ 7 = 128 by norm_num] at h3
      omega
    have hb1 : (f >>> 8) ||| ((f &&& 3) <<< 6) < 256 := by
      have e1 : f >>> 8 < 2 ^ 8 := by
        rw [Nat.shiftRight_eq_div_pow]
        show f / 256 < 2 ^ 8
        rw [show (2 : Nat) ^ 8 = 256 by norm_num]
        omega
      have e2 : (f &&& 3) <<< 6 < 2 ^ 8 := by
        rw [and3_eq_mod, Nat.shiftLeft_eq]
        show f % 4 * 64 < 2 ^ 8
        rw [show (2 : Nat) ^ 8 = 256 by norm_num]
        omega
      have h3 := Nat.or_lt_two_pow e1 e2
      rw [show (2 : Nat) ^ 8 = 256 by norm_num] at h3
      exact h3
    have hfle : ¬f ≤ 0x3f := by omega
    simp [pack, hfle] at hx
    rcases hx with h | h <;> omega

theorem computeChecksum_length (H : List Nat → List Nat) (hH : HashValid H)
    (bs : List Nat) : (computeChecksum H bs).length = 2 := by
  have := (hH (checksumTag ++ bs)).1
  simp [computeChecksum]
  omega

theorem computeChecksum_bytes (H : List Nat → List Nat) (hH : HashValid H)
    (bs : List Nat) : IsByteList (computeChecksum H bs) := by
  intro x hx
  exact (hH (checksumTag ++ bs)).2 x (List.take_subset _ _ hx)

theorem constHash_valid : HashValid constHash := by
  intro bs
  constructor
  · simp [constHash]
  · intro x hx
    simp [constHash] at hx
    omega

theorem charCodec_roundTrips : RoundTrips charCodec := by
  intro bs hbs
  simp only [charCodec]
  have h : (bs.map Char.ofNat).map Char.toNat = bs := by
    rw [List.map_map]
    have he : ∀ x ∈ bs, (Char.toNat ∘ Char.ofNat) x = id x := by
      intro x hx
      exact charRoundTrip x (hbs x hx)
    rw [List.map_congr_left he, List.map_id]
  simp [h]

theorem getD_lt_of_bytes (bs : List Nat) (h : IsByteList bs) (i : Nat) :
    bs.getD i 0 < 256 := by
  rcases hg : bs.get? i with _ | x
  · rw [List.getD_eq_get?, hg]
    simp
  · rw [List.getD_eq_get?, hg]
    exact h x (List.get?_mem hg)

theorem unpackFormat_le (bs : List Nat) (h : IsByteList bs) : unpackFormat bs ≤ 16383 := by
  have h0 := getD_lt_of_bytes bs h 0
  have h1 := getD_lt_of_bytes bs h 1
  unfold unpackFormat
  split
  · have e1 : (bs.getD 0 0 &&& 63) <<< 2 < 2 ^ 14 := by
      have e := Nat.and_lt_two_pow (bs.getD 0 0) (show (63 : Nat) < 2 ^ 6 by norm_num)
      rw [Nat.shiftLeft_eq, show (2 : Nat) ^ 14 = 16384 by norm_num]
      rw [show (2 : Nat) ^ 6 = 64 by norm_num] at e
      show (bs.getD 0 0 &&& 63) * 4 < 16384
      omega
    have e2 : bs.getD 1 0 >>> 6 < 2 ^ 14 := by
      rw [Nat.shiftRight_eq_div_pow, show (2 : Nat) ^ 14 = 16384 by norm_num]
      show bs.getD 1 0 / 64 < 16384
      omega
    have e3 : (bs.getD 1 0 &&& 63) <<< 8 < 2 ^ 14 := by
      have e := Nat.and_lt_two_pow (bs.getD 1 0) (show (63 : Nat) < 2 ^ 6 by norm_num)
      rw [Nat.shiftLeft_eq, show (2 : Nat) ^ 14 = 16384 by norm_num]
      rw [show (2 : Nat) ^ 6 = 64 by norm_num] at e
      show (bs.getD 1 0 &&& 63) * 256 < 16384
      omega
    have h4 := Nat.or_lt_two_pow (Nat.or_lt_two_pow e1 e2) e3
    rw [show (2 : Nat) ^ 14 = 16384 by norm_num] at h4
    omega
  · omega

/-- C2: for every format in [0,16383], unpacking the 1- or 2-byte wire form
produced by packing that format recovers the same format, and the packed
form has length 1 exactly when the format is at most 63 and length 2
exactly when the format lies in [64,16383]. -/
theorem c2_pack_unpack_bijection (f : Nat) (hf : f ≤ 16383) :
    unpackFormat (pack f) = f ∧
    ((pack f).length = 1 ↔ f ≤ 63) ∧
    ((pack f).length = 2 ↔ 64 ≤ f ∧ f ≤ 16383) := by
  have h := unpack_pack f hf []
  rw [List.append_nil] at h
  refine ⟨h.1, ?_, ?_⟩ <;> rw [pack_length] <;> split <;> constructor <;> intro <;> omega

/-- Witness for C2 at the largest format. -/
theorem c2_pack_unpack_bijection_witness :
    16383 ≤ 16383 ∧
    (unpackFormat (pack 16383) = 16383 ∧
      ((pack 16383).length = 1 ↔ 16383 ≤ 63) ∧
      ((pack 16383).length = 2 ↔ 64 ≤ 16383 ∧ 16383 ≤ 16383)) :=
  ⟨by decide, c2_pack_unpack_bijection 16383 (by decide)⟩

/-- C7: unpacking any pair of bytes yields a format of at most 16383, and a
successful decode never returns a format outside [0,16383]. -/
theorem c7_format_bounded :
    (∀ b0 b1 : Nat, b0 < 256 → b1 < 256 → unpackFormat [b0, b1] ≤ 16383) ∧
    (∀ (H : List Nat → List Nat) (bytes : List Nat) (a : Address), IsByteList bytes →
      decodeBytes H bytes = Except.ok a → 0 ≤ a.ss58Format ∧ a.ss58Format ≤ 16383) := by
  constructor
  · intro b0 b1 hb0 hb1
    apply unpackFormat_le
    intro x hx
    simp at hx
    rcases hx with h | h <;> omega
  · intro H bytes a hbytes hok
    rw [decodeBytes_eq] at hok
    by_cases h1 : unpackFormat bytes = 46 ∨ unpackFormat bytes = 47
    · rw [if_pos h1] at hok
      exact Except.noConfusion hok
    · rw [if_neg h1] at hok
      by_cases h2 : ((bytes.take (bytes.length - 2)).drop (unpackLen bytes)).length ≠ 32
      · rw [if_pos h2] at hok
        exact Except.noConfusion hok
      · rw [if_neg h2] at hok
        split at hok
        · exact Except.noConfusion hok
        · split at hok
          · exact Except.noConfusion hok
          · have he := Except.ok.inj hok
            have hle := unpackFormat_le bytes hbytes
            rw [← he]
            constructor <;> simp <;> omega

/-- Witness for C7: a maximal byte pair and a concrete successful decode. -/
theorem c7_format_bounded_witness :
    unpackFormat [255, 255] ≤ 16383 ∧
    (0 ≤ (⟨List.replicate 32 0, (0 : Int)⟩ : Address).ss58Format ∧
      (⟨List.replicate 32 0, (0 : Int)⟩ : Address).ss58Format ≤ 16383) :=
  ⟨c7_format_bounded.1 255 255 (by decide) (by decide),
   c7_format_bounded.2 constHash (0 :: (List.replicate 32 0 ++ [0, 0]))
     ⟨List.replicate 32 0, (0 : Int)⟩ (by unfold IsByteList; decide) (by rfl)⟩

/-- C1: for every address with exactly 32 data bytes and a format in
[0,16383] outside the reserved set, decoding the string produced by encode
returns an address equal to the input (same data bytes, same format),
assuming the external collaborators honour their contracts. -/
theorem c1_round_trip (H : List Nat → List Nat) (b : Base58Codec)
    (hH : HashValid H) (hb : RoundTrips b) (a : Address)
    (hlen : a.data.length = 32) (hdata : IsByteList a.data)
    (h0 : 0 ≤ a.ss58Format) (h1 : a.ss58Format ≤ 16383)
    (h46 : a.ss58Format ≠ 46) (h47 : a.ss58Format ≠ 47) :
    ∃ s, encode H b a = Except.ok s ∧ decode H b s = Except.ok a := by
  have hf : a.ss58Format.toNat ≤ 16383 := by omega
  have henc := encodeBytes_ok H a hlen h0 h1 h46 h47
  have hcs2 : (computeChecksum H (pack a.ss58Format.toNat ++ a.data)).length = 2 :=
    computeChecksum_length H hH _
  have hwbytes : IsByteList (pack a.ss58Format.toNat ++ a.data ++
      computeChecksum H (pack a.ss58Format.toNat ++ a.data)) := by
    intro x hx
    simp only [List.mem_append] at hx
    rcases hx with (h | h) | h
    · exact pack_bytes _ hf x h
    · exact hdata x h
    · exact computeChecksum_bytes H hH _ x h
  refine ⟨b.enc (pack a.ss58Format.toNat ++ a.data ++
    computeChecksum H (pack a.ss58Format.toNat ++ a.data)), ?_, ?_⟩
  · rw [encode, henc]
    rfl
  · rw [decode, hb _ hwbytes]
    show decodeBytes H (pack a.ss58Format.toNat ++ a.data ++
      computeChecksum H (pack a.ss58Format.toNat ++ a.data)) = Except.ok a
    have hu := unpack_pack a.ss58Format.toNat hf
      (a.data ++ computeChecksum H (pack a.ss58Format.toNat ++ a.data))
    rw [← List.append_assoc] at hu
    rw [decodeBytes_split H _ _ _ hu.2 hlen hcs2, hu.1]
    rw [if_neg (by omega : ¬(a.ss58Format.toNat = 46 ∨ a.ss58Format.toNat = 47))]
    rw [if_neg (by simp), if_neg (by simp)]
    have hfmt : (a.ss58Format.toNat : Int) = a.ss58Format := Int.toNat_of_nonneg h0
    rw [hfmt]

/-- Witness for C1 at the all-zero 32-byte address with format 0, using the
concrete collaborator instantiations. -/
theorem c1_round_trip_witness :
    ∃ s, encode constHash charCodec ⟨List.replicate 32 0, 0⟩ = Except.ok s ∧
      decode constHash charCodec s = Except.ok ⟨List.replicate 32 0, 0⟩ :=
  c1_round_trip constHash charCodec constHash_valid charCodec_roundTrips
    ⟨List.replicate 32 0, 0⟩ (by decide) (by unfold IsByteList; decide)
    (by decide) (by decide) (by decide) (by decide)

/-- C3: the 2-byte checksum is the first 2 bytes of the external hash of
the fixed 7-byte ASCII tag (SS58PRE) followed by the payload; encode
computes it over the format bytes plus data and appends it afterwards, and
decode compares the two wire checksum bytes against a checksum recomputed
over the format bytes plus data only, never over bytes including the
checksum itself. -/
theorem c3_checksum_domain (H : List Nat → List Nat) :
    (∀ bs, computeChecksum H bs = (H ([83, 83, 53, 56, 80, 82, 69] ++ bs)).take 2) ∧
    (∀ a : Address, a.data.length = 32 → 0 ≤ a.ss58Format → a.ss58Format ≤ 16383 →
      a.ss58Format ≠ 46 → a.ss58Format ≠ 47 →
      encodeBytes H a = Except.ok (pack a.ss58Format.toNat ++ a.data ++
        computeChecksum H (pack a.ss58Format.toNat ++ a.data))) ∧
    (∀ pre data cs, unpackLen (pre ++ data ++ cs) = pre.length → data.length = 32 →
      cs.length = 2 →
      ¬(unpackFormat (pre ++ data ++ cs) = 46 ∨ unpackFormat (pre ++ data ++ cs) = 47) →
      (decodeBytes H (pre ++ data ++ cs) =
          Except.ok ⟨data, (unpackFormat (pre ++ data ++ cs) : Int)⟩ ↔
        cs.get? 0 = (computeChecksum H (pre ++ data)).get? 0 ∧
        cs.get? 1 = (computeChecksum H (pre ++ data)).get? 1)) := by
  refine ⟨fun bs => rfl, fun a h1 h2 h3 h4 h5 => encodeBytes_ok H a h1 h2 h3 h4 h5, ?_⟩
  intro pre data cs hlen hdata hcs hres
  rw [decodeBytes_split H pre data cs hlen hdata hcs, if_neg hres]
  by_cases c0 : cs.get? 0 = (computeChecksum H (pre ++ data)).get? 0
  · rw [if_neg (not_not_intro c0)]
    by_cases c1 : cs.get? 1 = (computeChecksum H (pre ++ data)).get? 1
    · rw [if_neg (not_not_intro c1)]
      exact ⟨fun _ => ⟨c0, c1⟩, fun _ => rfl⟩
    · rw [if_pos c1]
      exact ⟨fun h => Except.noConfusion h, fun h => absurd h.2 c1⟩
  · rw [if_pos c0]
    exact ⟨fun h => Except.noConfusion h, fun h => absurd h.1 c0⟩

/-- Witness for C3 on a concrete payload: the tag equation, a concrete
encode, and the decode equivalence on a 2-byte extended wire. -/
theorem c3_checksum_domain_witness :
    computeChecksum constHash [7] = (constHash ([83, 83, 53, 56, 80, 82, 69] ++ [7])).take 2 ∧
    encodeBytes constHash ⟨List.replicate 32 0, 0⟩ =
      Except.ok (pack (0 : Int).toNat ++ List.replicate 32 0 ++
        computeChecksum constHash (pack (0 : Int).toNat ++ List.replicate 32 0)) ∧
    (decodeBytes constHash ([64, 0] ++ List.replicate 32 0 ++ [0, 0]) =
        Except.ok ⟨List.replicate 32 0,
          (unpackFormat ([64, 0] ++ List.replicate 32 0 ++ [0, 0]) : Int)⟩ ↔
      ([0, 0] : List Nat).get? 0 =
          (computeChecksum constHash ([64, 0] ++ List.replicate 32 0)).get? 0 ∧
      ([0, 0] : List Nat).get? 1 =
          (computeChecksum constHash ([64, 0] ++ List.replicate 32 0)).get? 1) :=
  ⟨(c3_checksum_domain constHash).1 [7],
   (c3_checksum_domain constHash).2.1 ⟨List.replicate 32 0, 0⟩ (by decide) (by decide)
     (by decide) (by decide) (by decide),
   (c3_checksum_domain constHash).2.2 [64, 0] (List.replicate 32 0) [0, 0]
     (by decide) (by decide) (by decide) (by decide)⟩

/-- C8: for every valid address the byte sequence handed to the base-58
encoder has length exactly 35 when the format is at most 63 and exactly 36
otherwise; format 63 packs to one byte and format 64 to two. -/
theorem c8_wire_length (H : List Nat → List Nat) (hH : HashValid H) (a : Address)
    (hlen : a.data.length = 32) (h0 : 0 ≤ a.ss58Format) (h1 : a.ss58Format ≤ 16383)
    (h46 : a.ss58Format ≠ 46) (h47 : a.ss58Format ≠ 47) :
    (∃ w, encodeBytes H a = Except.ok w ∧
      w.length = if a.ss58Format ≤ 63 then 35 else 36) ∧
    (pack 63).length = 1 ∧ (pack 64).length = 2 := by
  refine ⟨⟨_, encodeBytes_ok H a hlen h0 h1 h46 h47, ?_⟩, by decide, by decide⟩
  simp only [List.length_append, hlen, computeChecksum_length H hH, pack_length]
  split <;> split <;> omega

/-- Witness for C8 at the boundary format 64. -/
theorem c8_wire_length_witness :
    (∃ w, encodeBytes constHash ⟨List.replicate 32 0, 64⟩ = Except.ok w ∧
      w.length = if (⟨List.replicate 32 0, 64⟩ : Address).ss58Format ≤ 63 then 35 else 36) ∧
    (pack 63).length = 1 ∧ (pack 64).length = 2 :=
  c8_wire_length constHash constHash_valid ⟨List.replicate 32 0, 64⟩
    (by decide) (by decide) (by decide) (by decide) (by decide)

/-- Counterexample for C4: a base-58 string whose decoded byte length is
prefixLen + 34 (here 1 + 34 = 35) does not fail with InvalidDataLength: it
is exactly the valid wire length, and this input decodes successfully. -/
theorem c4_counterexample :
    decode constHash charCodec (charCodec.enc (List.replicate 35 0)) =
      Except.ok ⟨List.replicate 32 0, 0⟩ ∧
    (List.replicate 35 0).length = unpackLen (List.replicate 35 0) + 34 ∧
    decode constHash charCodec (charCodec.enc (List.replicate 35 0)) ≠
      Except.error DecodeError.invalidDataLength := by
  have h : decode constHash charCodec (charCodec.enc (List.replicate 35 0)) =
      Except.ok ⟨List.replicate 32 0, 0⟩ := by rfl
  exact ⟨h, by decide, by rw [h]; exact fun he => Except.noConfusion he⟩

/-- C4 (amended): when the base-58 decoded bytes leave a middle slice —
after removing the prefix bytes from the front and the 2 checksum bytes
from the back — whose length is not exactly 32, and the recovered format is
not reserved, decode fails with InvalidDataLength; in particular decoded
lengths of prefixLen + 2 (empty data) and prefixLen + 36 (2 extra data
bytes) fail this way.  (The original claim's prefixLen + 34 is the one
valid wire length; see the counterexample.) -/
theorem c4_length_rejection (H : List Nat → List Nat) (b : Base58Codec)
    (s : String) (bytes : List Nat) (hdec : b.dec s = some bytes)
    (hres : ¬(unpackFormat bytes = 46 ∨ unpackFormat bytes = 47)) :
    (((bytes.take (bytes.length - 2)).drop (unpackLen bytes)).length ≠ 32 →
      decode H b s = Except.error DecodeError.invalidDataLength) ∧
    (bytes.length = unpackLen bytes + 2 →
      decode H b s = Except.error DecodeError.invalidDataLength) ∧
    (bytes.length = unpackLen bytes + 36 →
      decode H b s = Except.error DecodeError.invalidDataLength) := by
  have hmain : ((bytes.take (bytes.length - 2)).drop (unpackLen bytes)).length ≠ 32 →
      decode H b s = Except.error DecodeError.invalidDataLength := by
    intro hm
    rw [decode, hdec]
    show decodeBytes H bytes = _
    rw [decodeBytes_eq, if_neg hres, if_pos hm]
  refine ⟨hmain, ?_, ?_⟩ <;> intro hL <;> apply hmain <;>
    simp only [List.length_drop, List.length_take] <;> omega

/-- Witness for C4 (amended) on a 3-byte decoded input (prefixLen + 2). -/
theorem c4_length_rejection_witness :
    decode constHash charCodec (charCodec.enc [0, 0, 0]) =
      Except.error DecodeError.invalidDataLength :=
  (c4_length_rejection constHash charCodec (charCodec.enc [0, 0, 0]) [0, 0, 0]
    (by rfl) (by decide)).2.1 (by decide)

/-- Counterexample for C5: with format 46 but data of the wrong length,
encode fails with InvalidDataLength, not ReservedFormat — the data-length
check precedes the reserved check, so encode does not fail with
ReservedFormat regardless of every other part of the input. -/
theorem c5_counterexample :
    encode constHash charCodec ⟨[], 46⟩ = Except.error EncodeError.invalidDataLength ∧
    EncodeError.invalidDataLength ≠ EncodeError.reservedFormat :=
  ⟨rfl, by decide⟩

/-- C5 (amended): decode always fails with ReservedFormat when the
recovered format is 46 or 47, regardless of every other part of the input
(even with 32 data bytes and consistent checksum bytes); encode fails with
ReservedFormat when the format is 46 or 47 provided the data length is 32
(a wrong data length fails earlier with InvalidDataLength). -/
theorem c5_reserved_rejection :
    (∀ (H : List Nat → List Nat) (b : Base58Codec) (s : String) (bytes : List Nat),
      b.dec s = some bytes → (unpackFormat bytes = 46 ∨ unpackFormat bytes = 47) →
      decode H b s = Except.error DecodeError.reservedFormat) ∧
    (∀ (H : List Nat → List Nat) (b : Base58Codec) (a : Address), a.data.length = 32 →
      (a.ss58Format = 46 ∨ a.ss58Format = 47) →
      encode H b a = Except.error EncodeError.reservedFormat) := by
  constructor
  · intro H b s bytes hdec hres
    rw [decode, hdec]
    show decodeBytes H bytes = _
    rw [decodeBytes_eq, if_pos hres]
  · intro H b a hlen hres
    have hrange : 0 ≤ a.ss58Format ∧ a.ss58Format ≤ 0x3fff := by
      rcases hres with h | h <;> rw [h] <;> exact ⟨by decide, by decide⟩
    rw [encode, encodeBytes, if_neg (by omega : ¬a.data.length ≠ 32),
      if_neg (not_not_intro hrange), if_pos hres]
    rfl

/-- Witness for C5 (amended): a reserved wire format on decode and a
reserved caller format on encode. -/
theorem c5_reserved_rejection_witness :
    decode constHash charCodec (charCodec.enc [46]) =
      Except.error DecodeError.reservedFormat ∧
    encode constHash charCodec ⟨List.replicate 32 0, 47⟩ =
      Except.error EncodeError.reservedFormat :=
  ⟨c5_reserved_rejection.1 constHash charCodec (charCodec.enc [46]) [46]
     (by rfl) (by decide),
   c5_reserved_rejection.2 constHash charCodec ⟨List.replicate 32 0, 47⟩
     (by decide) (by decide)⟩

/-- C6: encode succeeds only when all three preconditions hold (32 data
bytes, format in [0,16383], format not reserved); each violation is a
distinct failure mode in source order; the three encode failure kinds are
pairwise distinct; and the out-of-range kind cannot occur on decode — every
decode error is one of the four decode kinds, which do not include a range
failure. -/
theorem c6_encode_preconditions (H : List Nat → List Nat) (a : Address) :
    ((∃ w, encodeBytes H a = Except.ok w) →
      a.data.length = 32 ∧ 0 ≤ a.ss58Format ∧ a.ss58Format ≤ 16383 ∧
        a.ss58Format ≠ 46 ∧ a.ss58Format ≠ 47) ∧
    (a.data.length ≠ 32 → encodeBytes H a = Except.error EncodeError.invalidDataLength) ∧
    (a.data.length = 32 → ¬(0 ≤ a.ss58Format ∧ a.ss58Format ≤ 16383) →
      encodeBytes H a = Except.error EncodeError.invalidFormatRange) ∧
    (a.data.length = 32 → 0 ≤ a.ss58Format → a.ss58Format ≤ 16383 →
      (a.ss58Format = 46 ∨ a.ss58Format = 47) →
      encodeBytes H a = Except.error EncodeError.reservedFormat) ∧
    (EncodeError.invalidDataLength ≠ EncodeError.invalidFormatRange ∧
      EncodeError.invalidDataLength ≠ EncodeError.reservedFormat ∧
      EncodeError.invalidFormatRange ≠ EncodeError.reservedFormat) ∧
    (∀ (b : Base58Codec) (s : String) (e : DecodeError),
      decode H b s = Except.error e →
      e = DecodeError.invalidBase58 ∨ e = DecodeError.reservedFormat ∨
        e = DecodeError.invalidDataLength ∨ e = DecodeError.checksumMismatch) := by
  refine ⟨?_, ?_, ?_, ?_, by decide, ?_⟩
  · rintro ⟨w, hw⟩
    rw [encodeBytes] at hw
    by_cases d1 : a.data.length ≠ 32
    · rw [if_pos d1] at hw
      exact Except.noConfusion hw
    · rw [if_neg d1] at hw
      by_cases d2 : ¬(0 ≤ a.ss58Format ∧ a.ss58Format ≤ 0x3fff)
      · rw [if_pos d2] at hw
        exact Except.noConfusion hw
      · rw [if_neg d2] at hw
        by_cases d3 : a.ss58Format = 46 ∨ a.ss58Format = 47
        · rw [if_pos d3] at hw
          exact Except.noConfusion hw
        · rw [not_not] at d2
          push_neg at d3
          exact ⟨by omega, d2.1, d2.2, d3.1, d3.2⟩
  · intro h
    rw [encodeBytes, if_pos h]
  · intro h hr
    rw [encodeBytes, if_neg (by omega : ¬a.data.length ≠ 32), if_pos hr]
  · intro h h0 h1 hr
    have hrange : 0 ≤ a.ss58Format ∧ a.ss58Format ≤ 0x3fff := ⟨h0, h1⟩
    rw [encodeBytes, if_neg (by omega : ¬a.data.length ≠ 32),
      if_neg (not_not_intro hrange), if_pos hr]
  · intro b s e _
    cases e
    · exact Or.inl rfl
    · exact Or.inr (Or.inl rfl)
    · exact Or.inr (Or.inr (Or.inl rfl))
    · exact Or.inr (Or.inr (Or.inr rfl))

/-- Witness for C6: each encode precondition violation at a concrete input,
in source order. -/
theorem c6_encode_preconditions_witness :
    encodeBytes constHash ⟨[], 0⟩ = Except.error EncodeError.invalidDataLength ∧
    encodeBytes constHash ⟨List.replicate 32 0, 16384⟩ =
      Except.error EncodeError.invalidFormatRange ∧
    encodeBytes constHash ⟨List.replicate 32 0, 46⟩ =
      Except.error EncodeError.reservedFormat :=
  ⟨(c6_encode_preconditions constHash ⟨[], 0⟩).2.1 (by decide),
   (c6_encode_preconditions constHash ⟨List.replicate 32 0, 16384⟩).2.2.1
     (by decide) (by decide),
   (c6_encode_preconditions constHash ⟨List.replicate 32 0, 46⟩).2.2.2.1
     (by decide) (by decide) (by decide) (by decide)⟩

/-- C10: decode is total over decoded byte sequences — every input,
including empty and overlapping-region inputs, yields either a valid
address with 32 data bytes or one of the defined failures; and any decoded
sequence shorter than prefixLen + 34 bytes fails, with InvalidDataLength
when the recovered format is not reserved. -/
theorem c10_total_short_rejection (H : List Nat → List Nat) :
    (∀ bytes, (∃ a, decodeBytes H bytes = Except.ok a ∧ a.data.length = 32) ∨
      (∃ e, decodeBytes H bytes = Except.error e)) ∧
    (∀ bytes, bytes.length < unpackLen bytes + 34 →
      ¬(unpackFormat bytes = 46 ∨ unpackFormat bytes = 47) →
      decodeBytes H bytes = Except.error DecodeError.invalidDataLength) := by
  constructor
  · intro bytes
    rw [decodeBytes_eq]
    by_cases h1 : unpackFormat bytes = 46 ∨ unpackFormat bytes = 47
    · exact Or.inr ⟨_, by rw [if_pos h1]⟩
    · rw [if_neg h1]
      by_cases h2 : ((bytes.take (bytes.length - 2)).drop (unpackLen bytes)).length ≠ 32
      · exact Or.inr ⟨_, by rw [if_pos h2]⟩
      · rw [if_neg h2]
        by_cases h3 : (bytes.drop (bytes.length - 2)).get? 0 ≠
            (computeChecksum H (bytes.take (bytes.length - 2))).get? 0
        · exact Or.inr ⟨_, by rw [if_pos h3]⟩
        · rw [if_neg h3]
          by_cases h4 : (bytes.drop (bytes.length - 2)).get? 1 ≠
              (computeChecksum H (bytes.take (bytes.length - 2))).get? 1
          · exact Or.inr ⟨_, by rw [if_pos h4]⟩
          · rw [if_neg h4]
            exact Or.inl ⟨_, rfl, not_ne_iff.mp h2⟩
  · intro bytes hshort hres
    have hm : ((bytes.take (bytes.length - 2)).drop (unpackLen bytes)).length ≠ 32 := by
      simp only [List.length_drop, List.length_take]
      omega
    rw [decodeBytes_eq, if_neg hres, if_pos hm]

/-- Witness for C10: the empty input and a 2-byte input where the regions
overlap, both rejected. -/
theorem c10_total_short_rejection_witness :
    ((∃ a, decodeBytes constHash [] = Except.ok a ∧ a.data.length = 32) ∨
      (∃ e, decodeBytes constHash [] = Except.error e)) ∧
    decodeBytes constHash [1, 2] = Except.error DecodeError.invalidDataLength :=
  ⟨(c10_total_short_rejection constHash).1 [],
   (c10_total_short_rejection constHash).2 [1, 2] (by decide) (by decide)⟩

theorem zeros_bytes : IsByteList (List.replicate 32 0) := by
  intro x hx
  rw [List.eq_of_mem_replicate hx]
  omega

theorem wire_bytes (H : List Nat → List Nat) (hH : HashValid H) (pre data : List Nat)
    (hpre : IsByteList pre) (hdata : IsByteList data) :
    IsByteList (pre ++ data ++ computeChecksum H (pre ++ data)) := by
  intro x hx
  simp only [List.mem_append] at hx
  rcases hx with (h | h) | h
  · exact hpre x h
  · exact hdata x h
  · exact computeChecksum_bytes H hH _ x h

theorem enc_ne_of_ne (b : Base58Codec) (hb : RoundTrips b) (w v : List Nat)
    (hw : IsByteList w) (hv : IsByteList v) (hne : w ≠ v) : b.enc w ≠ b.enc v := by
  intro he
  have h1 := hb w hw
  rw [he, hb v hv] at h1
  exact hne (Option.some.inj h1).symm

/-- C9: decode accepts non-canonical wire forms that encode never produces,
so encode after decode does not reproduce the input.  First: a 2-byte
extended prefix carrying a format of at most 63 (bytes 0x40, 0x00 for
format 0) with 32 data bytes and a matching checksum is accepted, yet
encode of the returned address emits a 1-byte prefix and a different
string.  Second: a 1-byte prefix byte in [128,191] (bit 6 clear, bit 7
set, here 128) is accepted as simple form, yet encode of the returned
address emits a 2-byte prefix and a different string. -/
theorem c9_non_canonical (H : List Nat → List Nat) (b : Base58Codec)
    (hH : HashValid H) (hb : RoundTrips b) :
    (∃ bytes a, decodeBytes H bytes = Except.ok a ∧ unpackLen bytes = 2 ∧
      a.ss58Format ≤ 63 ∧ ∃ w, encodeBytes H a = Except.ok w ∧
        (pack a.ss58Format.toNat).length = 1 ∧ w ≠ bytes ∧ b.enc w ≠ b.enc bytes) ∧
    (∃ bytes a, decodeBytes H bytes = Except.ok a ∧ unpackLen bytes = 1 ∧
      128 ≤ a.ss58Format ∧ a.ss58Format ≤ 191 ∧ ∃ w, encodeBytes H a = Except.ok w ∧
        (pack a.ss58Format.toNat).length = 2 ∧ w ≠ bytes ∧ b.enc w ≠ b.enc bytes) := by
  constructor
  · have hcs2 : (computeChecksum H ([64, 0] ++ List.replicate 32 0)).length = 2 :=
      computeChecksum_length H hH _
    have hlen1 : unpackLen ([64, 0] ++ List.replicate 32 0 ++
        computeChecksum H ([64, 0] ++ List.replicate 32 0)) = 2 := by
      simp [unpackLen]
    have hfmt1 : unpackFormat ([64, 0] ++ List.replicate 32 0 ++
        computeChecksum H ([64, 0] ++ List.replicate 32 0)) = 0 := by
      simp [unpackFormat]
      decide
    have hdec1 := decodeBytes_split H [64, 0] (List.replicate 32 0)
      (computeChecksum H ([64, 0] ++ List.replicate 32 0)) (by rw [hlen1]; rfl) (by decide) hcs2
    rw [hfmt1] at hdec1
    have hds : decodeBytes H ([64, 0] ++ List.replicate 32 0 ++
        computeChecksum H ([64, 0] ++ List.replicate 32 0)) =
        Except.ok ⟨List.replicate 32 0, (0 : Int)⟩ := by
      rw [hdec1, if_neg (by decide), if_neg (by simp), if_neg (by simp)]
      rfl
    have henc := encodeBytes_ok H ⟨List.replicate 32 0, 0⟩ (by decide) (by decide)
      (by decide) (by decide) (by decide)
    have hw35 : (pack (0 : Int).toNat ++ List.replicate 32 0 ++
        computeChecksum H (pack (0 : Int).toNat ++ List.replicate 32 0)).length = 35 := by
      rw [List.length_append, List.length_append, computeChecksum_length H hH, pack_length]
      norm_num
    have hb36 : ([64, 0] ++ List.replicate 32 0 ++
        computeChecksum H ([64, 0] ++ List.replicate 32 0)).length = 36 := by
      rw [List.length_append, List.length_append, hcs2]
      norm_num
    have hne1 : pack (0 : Int).toNat ++ List.replicate 32 0 ++
        computeChecksum H (pack (0 : Int).toNat ++ List.replicate 32 0) ≠
        [64, 0] ++ List.replicate 32 0 ++
          computeChecksum H ([64, 0] ++ List.replicate 32 0) := by
      intro heq
      rw [heq, hb36] at hw35
      omega
    refine ⟨_, _, hds, hlen1, by decide, _, henc, by decide, hne1, ?_⟩
    exact enc_ne_of_ne b hb _ _
      (wire_bytes H hH _ _ (pack_bytes _ (by decide)) zeros_bytes)
      (wire_bytes H hH _ _ (by intro x hx; simp at hx; rcases hx with h | h <;> omega)
        zeros_bytes) hne1
  · have hcs2 : (computeChecksum H ([128] ++ List.replicate 32 0)).length = 2 :=
      computeChecksum_length H hH _
    have hlen2 : unpackLen ([128] ++ List.replicate 32 0 ++
        computeChecksum H ([128] ++ List.replicate 32 0)) = 1 := by
      simp [unpackLen]
      decide
    have hfmt2 : unpackFormat ([128] ++ List.replicate 32 0 ++
        computeChecksum H ([128] ++ List.replicate 32 0)) = 128 := by
      simp [unpackFormat]
      decide
    have hdec2 := decodeBytes_split H [128] (List.replicate 32 0)
      (computeChecksum H ([128] ++ List.replicate 32 0)) (by rw [hlen2]; rfl) (by decide) hcs2
    rw [hfmt2] at hdec2
    have hds : decodeBytes H ([128] ++ List.replicate 32 0 ++
        computeChecksum H ([128] ++ List.replicate 32 0)) =
        Except.ok ⟨List.replicate 32 0, (128 : Int)⟩ := by
      rw [hdec2, if_neg (by decide), if_neg (by simp), if_neg (by simp)]
      rfl
    have henc := encodeBytes_ok H ⟨List.replicate 32 0, 128⟩ (by decide) (by decide)
      (by decide) (by decide) (by decide)
    have hw36 : (pack (128 : Int).toNat ++ List.replicate 32 0 ++
        computeChecksum H (pack (128 : Int).toNat ++ List.replicate 32 0)).length = 36 := by
      rw [List.length_append, List.length_append, computeChecksum_length H hH, pack_length]
      norm_num
    have hb35 : ([128] ++ List.replicate 32 0 ++
        computeChecksum H ([128] ++ List.replicate 32 0)).length = 35 := by
      rw [List.length_append, List.length_append, hcs2]
      norm_num
    have hne2 : pack (128 : Int).toNat ++ List.replicate 32 0 ++
        computeChecksum H (pack (128 : Int).toNat ++ List.replicate 32 0) ≠
        [128] ++ List.replicate 32 0 ++
          computeChecksum H ([128] ++ List.replicate 32 0) := by
      intro heq
      rw [heq, hb35] at hw36
      omega
    refine ⟨_, _, hds, hlen2, by decide, by decide, _, henc, by decide, hne2, ?_⟩
    exact enc_ne_of_ne b hb _ _
      (wire_bytes H hH _ _ (pack_bytes _ (by decide)) zeros_bytes)
      (wire_bytes H hH _ _ (by intro x hx; simp at hx; omega) zeros_bytes) hne2

/-- Witness for C9 with the concrete collaborator instantiations. -/
theorem c9_non_canonical_witness :
    (∃ bytes a, decodeBytes constHash bytes = Except.ok a ∧ unpackLen bytes = 2 ∧
      a.ss58Format ≤ 63 ∧ ∃ w, encodeBytes constHash a = Except.ok w ∧
        (pack a.ss58Format.toNat).length = 1 ∧ w ≠ bytes ∧
        charCodec.enc w ≠ charCodec.enc bytes) ∧
    (∃ bytes a, decodeBytes constHash bytes = Except.ok a ∧ unpackLen bytes = 1 ∧
      128 ≤ a.ss58Format ∧ a.ss58Format ≤ 191 ∧ ∃ w, encodeBytes constHash a = Except.ok w ∧
        (pack a.ss58Format.toNat).length = 2 ∧ w ≠ bytes ∧
        charCodec.enc w ≠ charCodec.enc bytes) :=
  c9_non_canonical constHash charCodec constHash_valid charCodec_roundTrips
